import Mathlib

/-!
# ReplyCraft — verification of the cache / adapter / text-insertion core

Shallow embedding of the ReplyCraft browser extension's cache store
(`src/shared/storage.ts`), platform adapters
(`src/platform-adapters/*.ts`), thread extractor
(`src/content/floating-button.ts`, thread-extractor part), and text
inserter (`src/content/text-inserter.ts`).

Modelling conventions:
* JS strings are Lean `String`s.  JS `charCodeAt` iterates UTF-16 code
  units; `strUtf16` expands a Lean `Char` (a Unicode scalar value) into
  its UTF-16 units, so the string-hash model is exact.  Length/slice
  based functions (`truncateText`, `truncateForPrompt`) are modelled on
  scalar values, which coincides with UTF-16 units for all
  basic-multilingual-plane text and for every input appearing in the
  theorems below.
* JS numbers: the sizes and timestamps involved are integers far below
  2^53, where double arithmetic is exact, so they are modelled as
  `Nat`/`Int`.  The two places the source touches non-integral floats
  (`entries.length * 0.2` and `maxLength * 0.7`) are modelled by exact
  rationals; comments at the definitions justify the equivalence on the
  relevant domain.
* `chrome.storage.local` is a key/value store; it is modelled as an
  association list of cache entries plus the separate `cacheIndex`
  record (the key namespaces `"cache_" ++ k` and `"cacheIndex"` are
  disjoint).  `Date.now()` is passed explicitly as `now`.
* The async functions in `storage.ts` are mutually recursive
  (`getCacheEntry` ↔ `removeCacheEntry`), and that recursion does not
  terminate on expired entries, so the storage operations take a fuel
  parameter: a `none` result means the recursion exceeded any finite
  fuel, i.e. the source diverges.
-/

set_option maxRecDepth 40000

namespace ReplyCraft

/-! ## JS string primitives -/

/-- Whitespace for the purposes of `String.prototype.trim` and `\s`
(the ASCII subset; the full JS set also has Unicode spaces, which no
input in this development uses). -/
def isWsChar (c : Char) : Bool :=
  c == ' ' || c == '\t' || c == '\n' || c == '\r' ||
    c == Char.ofNat 11 || c == Char.ofNat 12

/-- ASCII lowercasing of one character (`String.prototype.toLowerCase`
restricted to ASCII, which covers every input in this development). -/
def jsLowerChar (c : Char) : Char :=
  if 65 ≤ c.toNat ∧ c.toNat ≤ 90 then Char.ofNat (c.toNat + 32) else c

/-- `String.prototype.toLowerCase` (ASCII subset). -/
def jsToLower (s : String) : String :=
  String.mk (s.data.map jsLowerChar)

/-- `String.prototype.trim`. -/
def jsTrim (s : String) : String :=
  String.mk (((s.data.dropWhile isWsChar).reverse.dropWhile isWsChar).reverse)

/-- Collapse every maximal run of whitespace to a single `' '`
(`.replace(/\s+/g, ' ')`).  The boolean argument records whether the
previous character was whitespace. -/
def collapseWsGo : Bool → List Char → List Char
  | _, [] => []
  | prevWs, c :: cs =>
    if isWsChar c then
      (if prevWs then collapseWsGo true cs else ' ' :: collapseWsGo true cs)
    else c :: collapseWsGo false cs

/-- `.replace(/\s+/g, ' ')`. -/
def jsCollapseWs (s : String) : String :=
  String.mk (collapseWsGo false s.data)

/-- `String.prototype.includes` (substring containment). -/
def jsIncludes (s sub : String) : Bool :=
  s.data.tails.any (fun t => sub.data.isPrefixOf t)

/-- `s.slice(0, stop)` for a possibly negative `stop`
(JS clamps a negative `stop` to `length + stop`, floored at 0). -/
def jsSliceTo (s : String) (stop : Int) : String :=
  let e : Nat := if stop < 0 then (s.length + stop).toNat else min stop.toNat s.length
  String.mk (s.data.take e)

/-- `s.slice(0, n)` for a nonnegative `n`. -/
def jsTake (s : String) (n : Nat) : String :=
  String.mk (s.data.take n)

/-- `s.slice(n)` for a nonnegative `n`. -/
def jsDrop (s : String) (n : Nat) : String :=
  String.mk (s.data.drop n)

/-- `String.prototype.startsWith`. -/
def jsStartsWith (s pre : String) : Bool :=
  pre.data.isPrefixOf s.data

/-- `s.lastIndexOf(c)` for a single-character needle: the index of the
last occurrence, `-1` if absent. -/
def jsLastIndexOf (s : String) (c : Char) : Int :=
  match s.data.reverse.findIdx? (fun x => x == c) with
  | none => -1
  | some i => (s.length : Int) - 1 - (i : Int)

/-! ## JS number primitives -/

/-- `ToInt32`: reduce an integer modulo 2^32 into the signed 32-bit
range.  This is what both `x | 0`-style coercions, the `<<` operand
conversion and `hash & hash` perform. -/
def toInt32 (x : Int) : Int :=
  let m := x % 4294967296
  if m < 2147483648 then m else m - 4294967296

/-- UTF-16 code units of one Unicode scalar value (what
`charCodeAt` yields position by position). -/
def utf16Units (c : Char) : List Nat :=
  if c.toNat < 65536 then [c.toNat]
  else [55296 + (c.toNat - 65536) / 1024, 56320 + (c.toNat - 65536) % 1024]

/-- The UTF-16 code-unit sequence of a string. -/
def strUtf16 (s : String) : List Nat :=
  s.data.foldr (fun c acc => utf16Units c ++ acc) []

/-- One digit of `Number.prototype.toString(36)`: `0-9` then `a-z`. -/
def b36digit (n : Nat) : Char :=
  if n < 10 then Char.ofNat (48 + n) else Char.ofNat (87 + n)

/-- Base-36 digit expansion; the first argument is fuel (the number
itself suffices, since `n / 36 < n` for `n > 0`). -/
def natToBase36Go : Nat → Nat → List Char → List Char
  | 0, _, acc => acc
  | fuel + 1, n, acc =>
    if n = 0 then acc else natToBase36Go fuel (n / 36) (b36digit (n % 36) :: acc)

/-- `Math.abs(hash).toString(36)` for a natural number. -/
def natToBase36 (n : Nat) : String :=
  if n = 0 then "0" else String.mk (natToBase36Go n n [])

/-!
## `hashString` (`src/shared/storage.ts` 256–264)

```ts
function hashString(str: string): string {
  let hash = 0;
  for (let i = 0; i < str.length; i++) {
    const char = str.charCodeAt(i);
    hash = (hash << 5) - hash + char;
    hash = hash & hash; // Convert to 32-bit integer
  }
  return Math.abs(hash).toString(36);
}
```

At each iteration `hash` is a signed 32-bit integer (initially 0,
re-coerced by `hash & hash`), `hash << 5` wraps `hash * 32` to signed
32 bits, and the subsequent `- hash + char` is exact double
arithmetic (magnitudes < 2^33). -/
def hashStep (hash : Int) (char : Nat) : Int :=
  toInt32 (toInt32 (hash * 32) - hash + (char : Int))

def hashString (str : String) : String :=
  natToBase36 ((strUtf16 str).foldl hashStep 0).natAbs

/-!
## WHATWG `URL` model

`normalizeUrl` uses the host environment's `new URL(url)`,
`searchParams.delete`, `hash = ''` and `toString()`.  The parser below
models that constructor for the plain absolute `http(s)` URLs (no
userinfo, no port, no percent-encoding re-normalisation) that the
claims exercise; every other input is treated as a parse failure,
matching the `catch` branch for the inputs used in the theorems. -/

/-- Strip a literal prefix, returning the remainder. -/
def stripLit : List Char → List Char → Option (List Char)
  | [], l => some l
  | _, [] => none
  | p :: ps, c :: cs => if c = p then stripLit ps cs else none

structure UrlParts where
  scheme : String
  host : String
  path : String
  query : List (String × String)
  fragment : String
deriving DecidableEq

/-- Split off everything before the first occurrence of `sep`;
the second component is the remainder after `sep` (none if absent). -/
def splitFirst (sep : Char) : List Char → List Char × Option (List Char)
  | [] => ([], none)
  | c :: cs =>
    if c = sep then ([], some cs)
    else
      let r := splitFirst sep cs
      (c :: r.1, r.2)

/-- Split a list on every occurrence of `sep`. -/
def splitAllOn (sep : Char) : List Char → List (List Char)
  | [] => [[]]
  | c :: cs =>
    let r := splitAllOn sep cs
    if c = sep then [] :: r
    else
      match r with
      | [] => [[c]]
      | h :: t => (c :: h) :: t

/-- One `name=value` query parameter (`name` alone means empty value). -/
def parseParam (l : List Char) : String × String :=
  let r := splitFirst '=' l
  (String.mk r.1, String.mk (r.2.getD []))

def parseQuery (l : List Char) : List (String × String) :=
  if l = [] then [] else (splitAllOn '&' l).map parseParam

def parseUrl (url : String) : Option UrlParts :=
  let l := url.data
  let schemeRest : Option (String × List Char) :=
    match stripLit "https://".data l with
    | some r => some ("https", r)
    | none =>
      match stripLit "http://".data l with
      | some r => some ("http", r)
      | none => none
  match schemeRest with
  | none => none
  | some (scheme, rest) =>
    let hostCs := rest.takeWhile (fun c => !(c == '/' || c == '?' || c == '#'))
    if hostCs = [] then none
    else
      let afterHost := rest.drop hostCs.length
      let pathCs := afterHost.takeWhile (fun c => !(c == '?' || c == '#'))
      let afterPath := afterHost.drop pathCs.length
      let path := if pathCs = [] then "/" else String.mk pathCs
      let query :=
        match afterPath with
        | '?' :: qs => parseQuery (qs.takeWhile (fun c => c != '#'))
        | _ => []
      let fragment :=
        match afterPath.dropWhile (fun c => c != '#') with
        | '#' :: fs => String.mk fs
        | _ => ""
      some { scheme := scheme, host := jsToLower (String.mk hostCs),
             path := path, query := query, fragment := fragment }

/-- `URL.prototype.toString` (search serialised as `k=v` joined by
`&`, omitted when empty; fragment appended after `#` when present). -/
def urlToString (u : UrlParts) : String :=
  u.scheme ++ "://" ++ u.host ++ u.path ++
    (if u.query = [] then ""
     else "?" ++ String.intercalate "&" (u.query.map (fun p => p.1 ++ "=" ++ p.2))) ++
    (if u.fragment = "" then "" else "#" ++ u.fragment)

/-!
## `normalizeUrl` / `generateCacheKey` (`src/shared/storage.ts` 228–251)

```ts
function normalizeUrl(url: string): string {
  try {
    const parsed = new URL(url);
    parsed.searchParams.delete('utm_source');
    parsed.searchParams.delete('utm_medium');
    parsed.searchParams.delete('utm_campaign');
    parsed.searchParams.delete('ref');
    parsed.searchParams.delete('context');
    parsed.hash = '';
    return parsed.toString().toLowerCase();
  } catch {
    return url.toLowerCase();
  }
}
```
-/
def TRACKING_PARAMS : List String :=
  ["utm_source", "utm_medium", "utm_campaign", "ref", "context"]

def normalizeUrl (url : String) : String :=
  match parseUrl url with
  | some parsed =>
    let cleaned : UrlParts :=
      { parsed with
        query := parsed.query.filter (fun p => !(TRACKING_PARAMS.contains p.1)),
        fragment := "" }
    jsToLower (urlToString cleaned)
  | none => jsToLower url

def generateCacheKey (url : String) (tone : String) : String :=
  hashString (normalizeUrl url ++ ":" ++ tone)

/-- The string actually fed to `hashString` by `generateCacheKey`. -/
def cacheKeyInput (url : String) (tone : String) : String :=
  normalizeUrl url ++ ":" ++ tone

/-!
## Truncation helpers

`BasePlatformAdapter.truncateText`
(`src/platform-adapters/adapter-interface.ts` 132–135):

```ts
protected truncateText(text: string, maxLength: number): string {
  if (text.length <= maxLength) return text;
  return text.slice(0, maxLength - 3) + '...';
}
```

`truncateForPrompt` (thread-analysis prompt builder):

```ts
function truncateForPrompt(text: string, maxLength: number): string {
  if (text.length <= maxLength) return text;
  const truncated = text.slice(0, maxLength);
  const lastPeriod = truncated.lastIndexOf('.');
  const lastNewline = truncated.lastIndexOf('\n');
  const cutPoint = Math.max(lastPeriod, lastNewline);
  if (cutPoint > maxLength * 0.7) {
    return truncated.slice(0, cutPoint + 1) + '\n[Content truncated]';
  }
  return truncated + '... [Content truncated]';
}
```

`cutPoint > maxLength * 0.7` is modelled exactly as the rational
comparison `10 * cutPoint > 7 * maxLength`; the double computation
`maxLength * 0.7` differs from `7 * maxLength / 10` by a relative
error below 2^-52, which cannot change the comparison against an
integer `cutPoint` for any `maxLength` used by the source (500, 3000,
15000) at the inputs appearing below. -/
def truncateText (text : String) (maxLength : Nat) : String :=
  if text.length ≤ maxLength then text
  else jsSliceTo text ((maxLength : Int) - 3) ++ "..."

def truncateForPrompt (text : String) (maxLength : Nat) : String :=
  if text.length ≤ maxLength then text
  else
    let truncated := jsTake text maxLength
    let lastPeriod := jsLastIndexOf truncated '.'
    let lastNewline := jsLastIndexOf truncated '\n'
    let cutPoint := max lastPeriod lastNewline
    if 10 * cutPoint > 7 * (maxLength : Int) then
      jsSliceTo truncated (cutPoint + 1) ++ "\n[Content truncated]"
    else truncated ++ "... [Content truncated]"

/-!
## Cache data model (`src/shared/types.ts` 39–74)
-/

structure AISuggestion where
  id : String
  text : String
  tone : String
  generatedAt : Int
deriving DecidableEq

structure CacheEntry where
  cacheKey : String
  threadUrl : String
  tone : String
  suggestions : List AISuggestion
  threadSummary : String
  createdAt : Int
  expiresAt : Int
deriving DecidableEq

structure CacheIndex where
  keys : List String
  totalSize : Nat
  lastPruned : Int
deriving DecidableEq

/-- The `chrome.storage.local` contents relevant to the cache: the
records at keys `"cache_" ++ cacheKey` (an association list keyed by
`cacheKey`; `storeGet` returns the first binding) and the record at
key `"cacheIndex"`.  The two namespaces are disjoint, so they are
separate fields. -/
structure CacheState where
  store : List (String × CacheEntry)
  index : CacheIndex
deriving DecidableEq

/-- `chrome.storage.local.get("cache_" ++ k)`. -/
def storeGet : List (String × CacheEntry) → String → Option CacheEntry
  | [], _ => none
  | p :: ps, k => if p.1 = k then some p.2 else storeGet ps k

/-- `chrome.storage.local.remove("cache_" ++ k)`. -/
def storeRemove (store : List (String × CacheEntry)) (k : String) :
    List (String × CacheEntry) :=
  store.filter (fun p => !(p.1 = k : Bool))

/-- `chrome.storage.local.set({ ["cache_" ++ k]: e })`: replace the
binding for `k` (represented by erasing any old binding and appending
the new one; only `storeGet`/membership of the result matter). -/
def storeSet (store : List (String × CacheEntry)) (k : String) (e : CacheEntry) :
    List (String × CacheEntry) :=
  storeRemove store k ++ [(k, e)]

/-!
## `CACHE_CONFIG` (`src/shared/constants.ts` 11–28)
-/

def MAX_STORAGE_BYTES : Nat := 8 * 1024 * 1024
def MAX_ENTRY_SIZE_BYTES : Nat := 100 * 1024
/-- `PRUNE_PERCENTAGE = 0.2`, used only inside
`Math.ceil(entries.length * 0.2)`; see `pruneRemoveCount`. -/
def PRUNE_PERCENTAGE_DEN : Nat := 5

/-- `Math.ceil(n * CACHE_CONFIG.PRUNE_PERCENTAGE)` with
`PRUNE_PERCENTAGE = 0.2`, i.e. `⌈n / 5⌉`.  The double product
`n * 0.2` equals `n/5` exactly when `5 ∣ n` (the rounding error
`n · 2⁻⁵⁴` is under half an ulp), and otherwise lies within `2⁻⁵⁰` of
the exact rational — far less than its distance `≥ 1/5` to the nearest
integer — so `Math.ceil` agrees with the exact ceiling for every
list length below 2^50. -/
def pruneRemoveCount (n : Nat) : Nat :=
  (n + (PRUNE_PERCENTAGE_DEN - 1)) / PRUNE_PERCENTAGE_DEN

/-!
## `getCacheEntry` / `removeCacheEntry` (`src/shared/storage.ts` 61–121)

```ts
export async function getCacheEntry(cacheKey: string): Promise<CacheEntry | null> {
  const storageKey = `${STORAGE_KEYS.CACHE}_${cacheKey}`;
  const result = await chrome.storage.local.get(storageKey);
  const entry = result[storageKey] as CacheEntry | undefined;
  if (!entry) { return null; }
  if (Date.now() > entry.expiresAt) {
    await removeCacheEntry(cacheKey);
    return null;
  }
  return entry;
}

export async function removeCacheEntry(cacheKey: string): Promise<void> {
  const storageKey = `${STORAGE_KEYS.CACHE}_${cacheKey}`;
  const entry = await getCacheEntry(cacheKey);          // ← recursion
  const entrySize = entry ? estimateSize(entry) : 0;
  await chrome.storage.local.remove(storageKey);
  const index = await getCacheIndex();
  index.keys = index.keys.filter((k) => k !== cacheKey);
  index.totalSize = Math.max(0, index.totalSize - entrySize);
  await saveCacheIndex(index);
}
```

The two functions are mutually recursive, so the model takes a fuel
argument; `none` means no finite recursion depth produces a result,
i.e. the source diverges (each bounce re-reads the still-stored
expired entry).  `esize` stands for `estimateSize`
(`new Blob([JSON.stringify(obj)]).size`, a host-serializer detail the
behaviour is parametric in).  `Math.max(0, a - b)` on naturals is
`Nat` subtraction. -/

mutual

def getCacheEntry (fuel : Nat) (esize : CacheEntry → Nat) (now : Int)
    (s : CacheState) (cacheKey : String) : Option (Option CacheEntry × CacheState) :=
  match fuel with
  | 0 => none
  | fuel + 1 =>
    match storeGet s.store cacheKey with
    | none => some (none, s)
    | some entry =>
      if now > entry.expiresAt then
        match removeCacheEntry fuel esize now s cacheKey with
        | none => none
        | some s1 => some (none, s1)
      else some (some entry, s)

def removeCacheEntry (fuel : Nat) (esize : CacheEntry → Nat) (now : Int)
    (s : CacheState) (cacheKey : String) : Option CacheState :=
  match fuel with
  | 0 => none
  | fuel + 1 =>
    match getCacheEntry fuel esize now s cacheKey with
    | none => none
    | some (entryOpt, s1) =>
      let entrySize := match entryOpt with | some e => esize e | none => 0
      some { store := storeRemove s1.store cacheKey,
             index := { keys := s1.index.keys.filter (fun k => !(k = cacheKey : Bool)),
                        totalSize := s1.index.totalSize - entrySize,
                        lastPruned := s1.index.lastPruned } }

end

/-- Remove a list of keys in order via `removeCacheEntry`
(the loop body of `pruneCache`). -/
def removeAll (fuel : Nat) (esize : CacheEntry → Nat) (now : Int) :
    List String → CacheState → Option CacheState
  | [], s => some s
  | k :: ks, s =>
    match removeCacheEntry fuel esize now s k with
    | none => none
    | some s1 => removeAll fuel esize now ks s1

/-!
## `pruneCache` (`src/shared/storage.ts` 152–188)

```ts
export async function pruneCache(index?: CacheIndex): Promise<void> {
  const currentIndex = index ?? (await getCacheIndex());
  const entries: Array<{ key: string; createdAt: number; size: number }> = [];
  for (const cacheKey of currentIndex.keys) {
    const storageKey = `${STORAGE_KEYS.CACHE}_${cacheKey}`;
    const result = await chrome.storage.local.get(storageKey);
    const entry = result[storageKey] as CacheEntry | undefined;
    if (entry) { entries.push({ key, createdAt, size }); }
  }
  entries.sort((a, b) => a.createdAt - b.createdAt);
  const removeCount = Math.ceil(entries.length * CACHE_CONFIG.PRUNE_PERCENTAGE);
  const toRemove = entries.slice(0, removeCount);
  for (const entry of toRemove) { await removeCacheEntry(entry.key); }
  const newIndex = await getCacheIndex();
  newIndex.lastPruned = Date.now();
  await saveCacheIndex(newIndex);
}
```

`Array.prototype.sort` is stable (ECMA-262), so the sort is modelled
by the stable `List.insertionSort` on the `createdAt` key. -/

/-- The `(key, createdAt, size)` triples collected from the index. -/
def pruneEntries (esize : CacheEntry → Nat) (store : List (String × CacheEntry))
    (keys : List String) : List (String × Int × Nat) :=
  keys.filterMap (fun k => (storeGet store k).map (fun e => (k, e.createdAt, esize e)))

/-- Comparison used by `entries.sort((a, b) => a.createdAt - b.createdAt)`. -/
def byCreatedAt (a b : String × Int × Nat) : Prop := a.2.1 ≤ b.2.1

instance : DecidableRel byCreatedAt := fun a b => Int.decLe a.2.1 b.2.1

instance : IsTotal (String × Int × Nat) byCreatedAt :=
  ⟨fun a b => Int.le_total a.2.1 b.2.1⟩

instance : IsTrans (String × Int × Nat) byCreatedAt :=
  ⟨fun _ _ _ hab hbc => Int.le_trans hab hbc⟩

def pruneCache (fuel : Nat) (esize : CacheEntry → Nat) (now : Int)
    (s : CacheState) (indexParam : Option CacheIndex) : Option CacheState :=
  let currentIndex := indexParam.getD s.index
  let entries := pruneEntries esize s.store currentIndex.keys
  let sorted := List.insertionSort byCreatedAt entries
  let removeCount := pruneRemoveCount entries.length
  let toRemove := sorted.take removeCount
  match removeAll fuel esize now (toRemove.map (fun e => e.1)) s with
  | none => none
  | some s1 =>
    some { s1 with index := { s1.index with lastPruned := now } }

/-!
## `saveCacheEntry` (`src/shared/storage.ts` 79–104)

```ts
export async function saveCacheEntry(entry: CacheEntry): Promise<void> {
  const storageKey = `${STORAGE_KEYS.CACHE}_${entry.cacheKey}`;
  const entrySize = estimateSize(entry);
  if (entrySize > CACHE_CONFIG.MAX_ENTRY_SIZE_BYTES) {
    throw new Error(`Cache entry exceeds maximum size ...`);
  }
  const index = await getCacheIndex();
  if (!index.keys.includes(entry.cacheKey)) { index.keys.push(entry.cacheKey); }
  index.totalSize += entrySize;
  if (index.totalSize > CACHE_CONFIG.MAX_STORAGE_BYTES) {
    await pruneCache(index);
  }
  await chrome.storage.local.set({ [storageKey]: entry });
  await saveCacheIndex(index);
}
```

Note the final `saveCacheIndex(index)` writes the in-memory `index`
object (keys incremented, `totalSize += entrySize`), regardless of
what `pruneCache` did to the stored index in between.  The outer
`Option` is divergence (fuel), the inner `Except` is the thrown
size-cap error. -/
def saveCacheEntry (fuel : Nat) (esize : CacheEntry → Nat) (now : Int)
    (s : CacheState) (entry : CacheEntry) : Option (Except String CacheState) :=
  let entrySize := esize entry
  if entrySize > MAX_ENTRY_SIZE_BYTES then
    some (Except.error "Cache entry exceeds maximum size")
  else
    let index : CacheIndex :=
      { keys := if s.index.keys.contains entry.cacheKey
                then s.index.keys else s.index.keys ++ [entry.cacheKey],
        totalSize := s.index.totalSize + entrySize,
        lastPruned := s.index.lastPruned }
    let afterPrune : Option CacheState :=
      if index.totalSize > MAX_STORAGE_BYTES then pruneCache fuel esize now s (some index)
      else some s
    match afterPrune with
    | none => none
    | some s1 =>
      some (Except.ok { store := storeSet s1.store entry.cacheKey entry, index := index })

instance {α β : Type} [DecidableEq α] [DecidableEq β] : DecidableEq (Except α β) :=
  fun a b =>
    match a, b with
    | Except.ok x, Except.ok y =>
      if h : x = y then Decidable.isTrue (by rw [h])
      else Decidable.isFalse (fun hc => h (by injection hc))
    | Except.error x, Except.error y =>
      if h : x = y then Decidable.isTrue (by rw [h])
      else Decidable.isFalse (fun hc => h (by injection hc))
    | Except.ok _, Except.error _ => Decidable.isFalse (fun hc => Except.noConfusion hc)
    | Except.error _, Except.ok _ => Decidable.isFalse (fun hc => Except.noConfusion hc)

/-!
## `ThreadContext` / `Comment` (`src/shared/types.ts` 22–37)

`platform` is the TS union `'reddit' | 'twitter' | 'facebook'`, but
`isValidContext` re-validates it at runtime (defence against a buggy
adapter), so the model carries it as a `String`. -/

structure Comment where
  id : String
  author : String
  text : String
  parentId : Option String
  depth : Nat
deriving DecidableEq

structure ThreadContext where
  platform : String
  url : String
  postTitle : String
  postBody : String
  comments : List Comment
  extractedAt : Int
deriving DecidableEq

/-!
## Thread extractor validation gate
(`src/content/floating-button.ts`, thread-extractor module)

```ts
function isValidContext(context: ThreadContext): boolean {
  if (!context.url) { return false; }
  const hasContent =
    context.postTitle.trim().length > 0 ||
    context.postBody.trim().length > 0 ||
    context.comments.length > 0;
  if (!hasContent) { return false; }
  const validPlatforms = ['reddit', 'twitter', 'facebook'];
  if (!validPlatforms.includes(context.platform)) { return false; }
  return true;
}
```
-/
def validPlatforms : List String := ["reddit", "twitter", "facebook"]

def isValidContext (context : ThreadContext) : Bool :=
  if context.url = "" then false
  else
    let hasContent :=
      decide (0 < (jsTrim context.postTitle).length) ||
      decide (0 < (jsTrim context.postBody).length) ||
      decide (0 < context.comments.length)
    if !hasContent then false
    else if !(decide (context.platform ∈ validPlatforms)) then false
    else true

/-- `extractWithAdapter` (same module): the adapter call either throws
(`Except.error`), returns `null`, or returns a context; a thrown error
or a context failing `isValidContext` becomes `null`.

```ts
export async function extractWithAdapter(adapter): Promise<ThreadContext | null> {
  try {
    const context = await adapter.extractThreadContext();
    if (!context) { return null; }
    if (!isValidContext(context)) { return null; }
    return context;
  } catch (error) { return null; }
}
```
-/
def extractWithAdapter {ε : Type} (adapterResult : Except ε (Option ThreadContext)) :
    Option ThreadContext :=
  match adapterResult with
  | Except.error _ => none
  | Except.ok none => none
  | Except.ok (some context) =>
    if !isValidContext context then none else some context

/-!
## Adapter URL patterns

`BasePlatformAdapter.canHandle(url)` is
`this.urlPatterns.some((pattern) => pattern.test(url))`.  Each regex
is `^`-anchored, so `test` is "matches at the start"; every pattern is
of the shape `^https?:\/\/(www\.)?LIT([^/]+\/LIT2)?...`, compiled
below into a deterministic matcher (`[^/]+` cannot cross a `/`, and no
alternative shares a first character with the optional `www.`, so no
backtracking is ever needed). -/

/-- `https?:\/\/` at the start. -/
def stripScheme (l : List Char) : Option (List Char) :=
  match stripLit "https://".data l with
  | some r => some r
  | none => stripLit "http://".data l

/-- `(www\.)?`. -/
def stripOptWww (l : List Char) : List Char :=
  match stripLit "www.".data l with
  | some r => r
  | none => l

/-- `[^/]+` followed by the rest starting at the next `/`;
fails when the input is empty or starts with `/`. -/
def dropSeg : List Char → Option (List Char)
  | [] => none
  | c :: cs =>
    if c = '/' then none
    else some (cs.dropWhile (fun x => !(x = '/' : Bool)))

/-- Match `scheme (www.)? lit1 [^/]+ lit2` as a prefix of `url`
(with empty `lit2` meaning the pattern ends right after `lit1`).
`segAndLit2 = false` omits the `[^/]+ lit2` part. -/
def matchPat (lit1 : String) (segAndLit2 : Bool) (lit2 : String) (url : String) : Bool :=
  match stripScheme url.data with
  | none => false
  | some l1 =>
    match stripLit lit1.data (stripOptWww l1) with
    | none => false
    | some l2 =>
      if !segAndLit2 then true
      else
        match dropSeg l2 with
        | none => false
        | some l3 => (stripLit lit2.data l3).isSome

/-- `RedditAdapter` `URL_PATTERNS`:
```ts
const URL_PATTERNS = [
  /^https?:\/\/(www\.)?reddit\.com\/r\/[^/]+\/comments\//,
  /^https?:\/\/old\.reddit\.com\/r\/[^/]+\/comments\//,
  /^https?:\/\/(www\.)?reddit\.com\/user\/[^/]+\/comments\//,
];
```
(the `old.reddit.com` pattern has no `(www\.)?` group, but `old.` also
does not start with `www.`, so `stripOptWww` leaves it unchanged). -/
def redditCanHandle (url : String) : Bool :=
  matchPat "reddit.com/r/" true "/comments/" url ||
  matchPat "old.reddit.com/r/" true "/comments/" url ||
  matchPat "reddit.com/user/" true "/comments/" url

/-- `TwitterAdapter`:
```ts
const URL_PATTERNS = [/^https?:\/\/(www\.)?(twitter|x)\.com\/[^/]+\/status\//];
```
-/
def twitterCanHandle (url : String) : Bool :=
  matchPat "twitter.com/" true "/status/" url ||
  matchPat "x.com/" true "/status/" url

/-- `FacebookAdapter`:
```ts
const URL_PATTERNS = [
  /^https?:\/\/(www\.)?facebook\.com\/[^/]+\/posts\//,
  /^https?:\/\/(www\.)?facebook\.com\/groups\/[^/]+\/posts\//,
  /^https?:\/\/(www\.)?facebook\.com\/permalink\.php/,
  /^https?:\/\/(www\.)?facebook\.com\/[^/]+\/photos\//,
  /^https?:\/\/(www\.)?facebook\.com\/photo/,
];
```
-/
def facebookCanHandle (url : String) : Bool :=
  matchPat "facebook.com/" true "/posts/" url ||
  matchPat "facebook.com/groups/" true "/posts/" url ||
  matchPat "facebook.com/permalink.php" false "" url ||
  matchPat "facebook.com/" true "/photos/" url ||
  matchPat "facebook.com/photo" false "" url

/-!
## Text inserter (`src/content/text-inserter.ts` 72–106)

```ts
export function insertText(input, text, adapter): void {
  const originalText = adapter.getInputText(input);
  try {
    adapter.setInputText(input, text, false);
    const newText = adapter.getInputText(input);
    const normalizedNew = newText.trim().replace(/\s+/g, ' ');
    const normalizedExpected = text.trim().replace(/\s+/g, ' ');
    if (!normalizedNew.includes(normalizedExpected) && normalizedNew.length === 0) {
      fallbackInsert(input, text);
    }
  } catch (error) {
    try { adapter.setInputText(input, originalText, false); } catch {}
    throw error;
  }
}
```

The DOM input element is an abstract state `σ`; the adapter supplies
`get` (`getInputText`) and `set` (`setInputText(state, text, append)`),
and `fb` is `fallbackInsert` (an independent DOM path).  A call that
throws is modelled as returning `Except.error` without a new state
(the state in hand is kept, which is the information the caller
retains).  The result pairs the final DOM state with either normal
completion or the propagated exception. -/
def insertText {σ ε : Type} (get : σ → String)
    (set : σ → String → Bool → Except ε σ) (fb : σ → String → Except ε σ)
    (input : σ) (text : String) : σ × Except ε Unit :=
  let originalText := get input
  match set input text false with
  | Except.error e =>
    match set input originalText false with
    | Except.ok s2 => (s2, Except.error e)
    | Except.error _ => (input, Except.error e)
  | Except.ok s1 =>
    let normalizedNew := jsCollapseWs (jsTrim (get s1))
    let normalizedExpected := jsCollapseWs (jsTrim text)
    if !(jsIncludes normalizedNew normalizedExpected) ∧ normalizedNew.length = 0 then
      match fb s1 text with
      | Except.ok s2 => (s2, Except.ok ())
      | Except.error e2 =>
        match set s1 originalText false with
        | Except.ok s3 => (s3, Except.error e2)
        | Except.error _ => (s1, Except.error e2)
    else (s1, Except.ok ())

/-!
## Comment extraction (claim C10)

A candidate DOM element is abstracted by the raw `textContent` of the
sub-elements the selectors find (`none` when no sub-element matches);
`getTextContent` is `(element.textContent || '').trim()`.  Generated
ids (`comment_${Date.now()}_${random}`) are opaque non-content values,
modelled by a fixed placeholder. -/
def getTextContent : Option String → String
  | none => ""
  | some t => jsTrim t

/-- `s || dflt`: JS falls back on the empty string. -/
def jsOrDefault (s dflt : String) : String :=
  if s = "" then dflt else s

def MAX_COMMENTS : Nat := 50
def MAX_COMMENT_DEPTH : Nat := 3

structure CandidateEl where
  textEl : Option String
  authorEl : Option String
deriving DecidableEq

/-- `BasePlatformAdapter.extractCommentsFromElements`
(`adapter-interface.ts` 141–172): iterate the first
`min(elements.length, maxComments)` elements, skip empty text, default
the author to `'Anonymous'`, truncate text to 2000. -/
def extractCommentsFromElements (elements : List CandidateEl)
    (maxComments : Nat) : List Comment :=
  (elements.take maxComments).filterMap (fun element =>
    let text := getTextContent element.textEl
    let author := jsOrDefault (getTextContent element.authorEl) "Anonymous"
    if text = "" then none
    else some { id := "comment", author := author,
                text := truncateText text 2000, parentId := none, depth := 0 })

/-- `RedditAdapter.extractSingleComment` (depth-checked variant):
returns `null` past `MAX_COMMENT_DEPTH`, skips empty text, defaults
the author to `'[deleted]'`. -/
def redditExtractSingleComment (textEl authorEl : Option String)
    (depth : Nat) : Option Comment :=
  if depth > MAX_COMMENT_DEPTH then none
  else
    let text := getTextContent textEl
    let author := jsOrDefault (getTextContent authorEl) "[deleted]"
    if text = "" then none
    else some { id := "comment", author := author,
                text := truncateText text 2000, parentId := none, depth := depth }

/-- A tweet `article` node: whether its permalink anchor matches the
main tweet id, its `tweetText` element, and its `User-Name` anchor
(which has an `href` attribute and a text content). -/
structure TweetEl where
  isMainLink : Bool
  textEl : Option String
  authorHref : Option String
  authorText : Option String
  authorElPresent : Bool
deriving DecidableEq

/-- `TwitterAdapter.extractTwitterUsername`:

```ts
private extractTwitterUsername(element: Element | null): string {
  if (!element) return 'Unknown';
  const href = element.getAttribute('href');
  if (href && href.startsWith('/')) { return '@' + href.slice(1); }
  const text = this.getTextContent(element);
  return text.startsWith('@') ? text : '@' + text;
}
```
-/
def extractTwitterUsername (t : TweetEl) : String :=
  if !t.authorElPresent then "Unknown"
  else
    match t.authorHref with
    | some href =>
      if href ≠ "" ∧ jsStartsWith href "/" then "@" ++ jsDrop href 1
      else if jsStartsWith (getTextContent t.authorText) "@" then
        getTextContent t.authorText
      else "@" ++ getTextContent t.authorText
    | none =>
      if jsStartsWith (getTextContent t.authorText) "@" then
        getTextContent t.authorText
      else "@" ++ getTextContent t.authorText

/-- `TwitterAdapter.extractReplies` (`twitter-adapter.ts` 157–197):
skip until the main tweet's permalink is seen, then collect tweets
with non-empty text up to `MAX_COMMENTS`. -/
def extractRepliesGo : List TweetEl → Bool → Nat → List Comment
  | [], _, _ => []
  | tweet :: rest, foundMainTweet, replyCount =>
    if tweet.isMainLink then extractRepliesGo rest true replyCount
    else if !foundMainTweet then extractRepliesGo rest foundMainTweet replyCount
    else if replyCount ≥ MAX_COMMENTS then []
    else if getTextContent tweet.textEl = "" then
      extractRepliesGo rest foundMainTweet replyCount
    else
      { id := "comment", author := extractTwitterUsername tweet,
        text := truncateText (getTextContent tweet.textEl) 2000,
        parentId := none, depth := 0 } ::
      extractRepliesGo rest foundMainTweet (replyCount + 1)

def extractReplies (allTweets : List TweetEl) : List Comment :=
  extractRepliesGo allTweets false 0

/-- `FacebookAdapter.extractSingleComment` (`part_009` 479–503): the
candidate texts are the `extractTextFromFacebookElement` results of
the text sub-elements; keep the longest non-empty one, default the
author to `'Facebook User'`. -/
def facebookExtractSingleComment (candidateTexts : List String)
    (authorEl : Option String) : Option Comment :=
  let text := candidateTexts.foldl
    (fun acc t => if t ≠ "" ∧ acc.length < t.length then t else acc) ""
  if text = "" then none
  else
    let author := jsOrDefault (getTextContent authorEl) "Facebook User"
    some { id := "comment", author := author,
           text := truncateText text 2000, parentId := none, depth := 0 }

/-!
## Concrete fixtures used by witnesses and counterexamples
-/

def entryA : CacheEntry :=
  { cacheKey := "a", threadUrl := "https://e.com/a", tone := "friendly",
    suggestions := [], threadSummary := "sa", createdAt := 10, expiresAt := 100 }

def entryB : CacheEntry :=
  { cacheKey := "b", threadUrl := "https://e.com/b", tone := "friendly",
    suggestions := [], threadSummary := "sb", createdAt := 5, expiresAt := 100 }

def entryK1 : CacheEntry :=
  { cacheKey := "k", threadUrl := "https://e.com/k", tone := "friendly",
    suggestions := [], threadSummary := "v1", createdAt := 1, expiresAt := 100 }

def entryK2 : CacheEntry :=
  { cacheKey := "k", threadUrl := "https://e.com/k", tone := "friendly",
    suggestions := [], threadSummary := "v2", createdAt := 2, expiresAt := 100 }

/-- Two live entries, `"b"` older than `"a"`, with a consistent index. -/
def stateAB : CacheState :=
  { store := [("a", entryA), ("b", entryB)],
    index := { keys := ["a", "b"], totalSize := 2, lastPruned := 0 } }

/-- One stored entry under key `"k"`, about to be overwritten. -/
def stateK : CacheState :=
  { store := [("k", entryK1)],
    index := { keys := ["k"], totalSize := 10, lastPruned := 0 } }

/-- A serializer assigning every entry 10 bytes (in particular, the old
and new versions of entry `"k"` have equal size, so the claimed "size
delta" on overwrite is 0). -/
def esize10 : CacheEntry → Nat := fun _ => 10

def esize1 : CacheEntry → Nat := fun _ => 1

/-- 400 `'a'`s, one `'.'`, 105 `'b'`s: length 506, last sentence
boundary at index 400, beyond 70% of the cap 500. -/
def cexLongText : String :=
  String.mk (List.replicate 400 'a' ++ '.' :: List.replicate 105 'b')

/-- A whitespace-only-title context: non-empty `url`, non-empty (but
blank) `postTitle`, valid platform. -/
def blankTitleContext : ThreadContext :=
  { platform := "reddit", url := "u", postTitle := " ", postBody := "",
    comments := [], extractedAt := 0 }

/-- A tweet list: the main tweet followed by one reply whose
`User-Name` anchor is missing. -/
def tweetsNoAuthor : List TweetEl :=
  [ { isMainLink := true, textEl := some "main", authorHref := none,
      authorText := none, authorElPresent := true },
    { isMainLink := false, textEl := some "hi", authorHref := none,
      authorText := none, authorElPresent := false } ]

/-!
# Theorems

## Shared helper lemmas
-/

theorem string_mk_length (l : List Char) : (String.mk l).length = l.length := rfl

theorem string_ne_empty_of_data_ne (s : String) (h : s.data ≠ []) : s ≠ "" := by
  intro hc
  apply h
  rw [hc]

theorem append_data_ne_nil (a : String) (b : String) (hb : b.data ≠ []) :
    (a ++ b).data ≠ [] := by
  rw [String.data_append]
  intro hc
  exact hb (List.append_eq_nil.mp hc).2

/-- `truncateText` never turns non-empty text into the empty string
(for the caps ≥ 3 the adapters use). -/
theorem truncateText_ne_empty (t : String) (m : Nat) (ht : t ≠ "") :
    truncateText t m ≠ "" := by
  unfold truncateText
  split
  · exact ht
  · exact string_ne_empty_of_data_ne _ (append_data_ne_nil _ _ (by decide))

theorem jsOrDefault_ne_empty (s d : String) (hd : d ≠ "") : jsOrDefault s d ≠ "" := by
  unfold jsOrDefault
  split
  · exact hd
  · assumption

/-!
## C9 — URL normalization invariance of `generateCacheKey`
-/

/-- C9: `generateCacheKey` is invariant under URL normalization:
stripping the `utm_source` tracking parameter and changing the case of
the host both leave the cache key unchanged (same tone). -/
theorem C9_generateCacheKey_normalization_invariance :
    generateCacheKey "https://reddit.com/r/test/comments/123" "friendly" =
      generateCacheKey "https://reddit.com/r/test/comments/123?utm_source=share" "friendly" ∧
    generateCacheKey "https://REDDIT.com/r/test/comments/123" "friendly" =
      generateCacheKey "https://reddit.com/r/test/comments/123" "friendly" := by
  exact ⟨by decide, by decide⟩

/-!
## C7 — concrete `canHandle` cases
-/

/-- C7: the adapters' `canHandle` URL matching decides the five listed
concrete cases: Reddit accepts a `/comments/` post URL and rejects a
bare subreddit URL; Twitter accepts an `x.com` status URL and rejects
`twitter.com/explore`; Facebook accepts a `permalink.php` URL. -/
theorem C7_canHandle_concrete_cases :
    redditCanHandle "https://www.reddit.com/r/test/comments/abc123/post_title" = true ∧
    redditCanHandle "https://www.reddit.com/r/test" = false ∧
    twitterCanHandle "https://x.com/user/status/123456789" = true ∧
    twitterCanHandle "https://twitter.com/explore" = false ∧
    facebookCanHandle "https://www.facebook.com/permalink.php?story_fbid=123" = true := by
  exact ⟨by decide, by decide, by decide, by decide, by decide⟩

/-!
## C5 — tone sensitivity of `generateCacheKey`
-/

/-- C5 counterexample: the claim "distinct tones always give distinct
keys" is false.  `hashString` is the 31-multiplier 32-bit string hash,
for which `"Aa"` and `"BB"` collide (65·31 + 97 = 66·31 + 66), so the
two distinct tones produce the same key for the same url. -/
theorem C5_distinct_tones_same_key_cex :
    generateCacheKey "x" "Aa" = generateCacheKey "x" "BB" ∧ ("Aa" : String) ≠ "BB" := by
  exact ⟨by decide, by decide⟩

/-- C5 (amended): distinct tones always produce distinct *hash inputs*
`normalizeUrl url ++ ":" ++ tone`; the key inequality holds only up to
collisions of the 32-bit `hashString`. -/
theorem C5_distinct_tones_distinct_hash_inputs (url t1 t2 : String) (h : t1 ≠ t2) :
    cacheKeyInput url t1 ≠ cacheKeyInput url t2 := by
  intro heq
  apply h
  have hd := congrArg String.data heq
  simp only [cacheKeyInput, String.data_append] at hd
  exact String.ext (List.append_cancel_left hd)

theorem C5_distinct_tones_distinct_hash_inputs_witness :
    ("Aa" : String) ≠ "BB" ∧ cacheKeyInput "x" "Aa" ≠ cacheKeyInput "x" "BB" :=
  ⟨by decide, C5_distinct_tones_distinct_hash_inputs "x" "Aa" "BB" (by decide)⟩

/-!
## C4 — adapter truncation policy
-/

/-- C4 counterexample: the claim says adapter-stored fields are
truncated preferring the last sentence/line boundary when it falls
past 70% of the cap.  `cexLongText` (length 506, cap 500) has its last
`'.'` at index 400 > 0.7·500 = 350, yet `truncateText` hard-cuts at
497 and keeps 96 `'b'`s that lie *after* that boundary — no boundary
cut happens. -/
theorem C4_adapter_truncation_ignores_boundary_cex :
    cexLongText.length = 506 ∧
    jsLastIndexOf (jsTake cexLongText 500) '.' = 400 ∧
    (10 * (400 : Int) > 7 * (500 : Int)) ∧
    truncateText cexLongText 500 =
      String.mk (List.replicate 400 'a' ++ '.' :: List.replicate 96 'b') ++ "..." ∧
    'b' ∈ (truncateText cexLongText 500).data := by
  exact ⟨by decide, by decide, by decide, by decide, by decide⟩

/-- C4 (amended): every adapter-stored text field is capped at its
fixed maximum length, but by the unconditional hard cut
`text.slice(0, max - 3) + '...'` of `truncateText`; the
sentence/line-boundary-preferring truncation is `truncateForPrompt`,
used when formatting prompts, not by the adapters (witness its
boundary cut on the very same input). -/
theorem C4_truncateText_caps_at_max (text : String) (maxLength : Nat)
    (h3 : 3 ≤ maxLength) :
    (truncateText text maxLength).length ≤ maxLength ∧
    (maxLength < text.length →
      truncateText text maxLength = jsTake text (maxLength - 3) ++ "...") ∧
    truncateForPrompt cexLongText 500 =
      String.mk (List.replicate 400 'a' ++ ['.']) ++ "\n[Content truncated]" := by
  refine ⟨?_, ?_, by decide⟩
  · unfold truncateText
    split
    · assumption
    · rename_i hgt
      have hstop : ¬ ((maxLength : Int) - 3 < 0) := by omega
      show (jsSliceTo text ((maxLength : Int) - 3) ++ "...").length ≤ maxLength
      unfold jsSliceTo
      simp only [if_neg hstop]
      rw [String.length_append, string_mk_length, List.length_take]
      have htn : ((maxLength : Int) - 3).toNat = maxLength - 3 := by omega
      rw [htn]
      have : ("..." : String).length = 3 := by decide
      rw [this]
      omega
  · intro hlt
    unfold truncateText
    rw [if_neg (by omega)]
    unfold jsSliceTo jsTake
    have hstop : ¬ ((maxLength : Int) - 3 < 0) := by omega
    simp only [if_neg hstop]
    have htn : ((maxLength : Int) - 3).toNat = maxLength - 3 := by omega
    rw [htn, Nat.min_eq_left (by omega)]

theorem C4_truncateText_caps_at_max_witness :
    3 ≤ 5 ∧ (truncateText "abcdefghij" 5).length ≤ 5 :=
  ⟨by decide, (C4_truncateText_caps_at_max "abcdefghij" 5 (by decide)).1⟩

/-!
## C6 — thread extractor validation gate
-/

/-- C6 counterexample: `blankTitleContext` has a non-empty url, a
non-empty (whitespace) title, and a valid platform — under the claim's
three checks it passes and must be returned unchanged — yet the gate
nullifies it, because `isValidContext` tests `postTitle.trim()`. -/
theorem C6_gate_rejects_whitespace_title_cex :
    blankTitleContext.url ≠ "" ∧
    blankTitleContext.postTitle ≠ "" ∧
    blankTitleContext.platform ∈ validPlatforms ∧
    extractWithAdapter (Except.ok (some blankTitleContext) : Except Unit (Option ThreadContext)) =
      none := by
  exact ⟨by decide, by decide, by decide, by decide⟩

theorem string_pos_iff_ne_empty (s : String) : 0 < s.length ↔ s ≠ "" := by
  constructor
  · intro h hc
    subst hc
    simp at h
  · intro h
    cases hd : s.data with
    | nil => exact absurd (String.ext (hd.trans rfl)) h
    | cons a l =>
      have : s.length = (a :: l).length := congrArg List.length hd
      rw [this]
      simp

/-- C6 (amended): the gate nullifies a non-null adapter result exactly
when the url is empty, or the url is non-empty but title and body are
empty *after trimming whitespace* and there are no comments, or the
platform is outside {reddit, twitter, facebook}; a context passing all
three (trim-aware) checks is returned unchanged, and a thrown or null
adapter result stays null. -/
theorem C6_extractWithAdapter_validation_gate (c : ThreadContext) :
    extractWithAdapter (Except.ok (some c) : Except Unit (Option ThreadContext)) =
      (if c.url ≠ "" ∧
          (jsTrim c.postTitle ≠ "" ∨ jsTrim c.postBody ≠ "" ∨ c.comments ≠ []) ∧
          c.platform ∈ validPlatforms
       then some c else none) ∧
    extractWithAdapter (Except.error () : Except Unit (Option ThreadContext)) = none ∧
    extractWithAdapter (Except.ok none : Except Unit (Option ThreadContext)) = none := by
  refine ⟨?_, rfl, rfl⟩
  show (if !isValidContext c then none else some c) = _
  by_cases h1 : c.url = "" <;> by_cases h2 : jsTrim c.postTitle = "" <;>
    by_cases h3 : jsTrim c.postBody = "" <;> by_cases h4 : c.comments = [] <;>
    by_cases h5 : c.platform ∈ validPlatforms <;>
    simp [isValidContext, h1, h2, h3, h4, h5, string_pos_iff_ne_empty,
      List.length_pos]

/-!
## C8 — text inserter rollback and re-raise
-/

/-- C8: if the adapter's `setInputText` call inside `insertText`
throws, `insertText` attempts to restore the pre-insertion text it
read before the call (keeping the restored state when the restore
succeeds, and the original state when the restore itself fails, whose
error is swallowed) and re-raises the same exception. -/
theorem C8_insertText_rollback_and_rethrow {σ ε : Type} (get : σ → String)
    (set : σ → String → Bool → Except ε σ) (fb : σ → String → Except ε σ)
    (input : σ) (text : String) (e : ε)
    (hthrow : set input text false = Except.error e) :
    (insertText get set fb input text).2 = Except.error e ∧
    (∀ s2, set input (get input) false = Except.ok s2 →
      (insertText get set fb input text).1 = s2) ∧
    (∀ e2, set input (get input) false = Except.error e2 →
      (insertText get set fb input text).1 = input) := by
  have hbody : insertText get set fb input text =
      (match set input (get input) false with
       | Except.ok s2 => (s2, Except.error e)
       | Except.error _ => (input, Except.error e)) := by
    unfold insertText
    rw [hthrow]
  refine ⟨?_, ?_, ?_⟩
  · rw [hbody]
    cases hr : set input (get input) false <;> rfl
  · intro s2 hr
    rw [hbody, hr]
  · intro e2 hr
    rw [hbody, hr]

theorem C8_insertText_rollback_and_rethrow_witness :
    ((fun (_ : Nat) (t : String) (_ : Bool) =>
        if t = "NEW" then (Except.error 7 : Except Nat Nat) else Except.ok 99)
      0 "NEW" false = Except.error 7) ∧
    (insertText (fun _ : Nat => "orig")
        (fun _ t _ => if t = "NEW" then (Except.error 7 : Except Nat Nat) else Except.ok 99)
        (fun s _ => Except.ok s) 0 "NEW").2 = Except.error 7 :=
  ⟨by decide,
    (C8_insertText_rollback_and_rethrow (fun _ : Nat => "orig")
      (fun _ t _ => if t = "NEW" then (Except.error 7 : Except Nat Nat) else Except.ok 99)
      (fun s _ => Except.ok s) 0 "NEW" 7 (by decide)).1⟩

/-!
## C1 — expired-entry reads diverge (code bug)
-/

/-- C1 (code bug): for a stored entry whose `expiresAt` is strictly
before `now`, `getCacheEntry` does *not* return `null` and remove the
entry: it calls `removeCacheEntry`, which re-enters `getCacheEntry` on
the still-stored expired entry, and the mutual recursion never
terminates — no finite fuel produces a result.  (A live entry is
returned unchanged: see the accompanying evaluation in the witness.) -/
theorem getCacheEntry_succ (n : Nat) (esize : CacheEntry → Nat) (now : Int)
    (s : CacheState) (k : String) :
    getCacheEntry (n + 1) esize now s k =
      (match storeGet s.store k with
       | none => some (none, s)
       | some entry =>
         if now > entry.expiresAt then
           (match removeCacheEntry n esize now s k with
            | none => none
            | some s1 => some (none, s1))
         else some (some entry, s)) := rfl

theorem removeCacheEntry_succ (n : Nat) (esize : CacheEntry → Nat) (now : Int)
    (s : CacheState) (k : String) :
    removeCacheEntry (n + 1) esize now s k =
      (match getCacheEntry n esize now s k with
       | none => none
       | some (entryOpt, s1) =>
         some { store := storeRemove s1.store k,
                index := { keys := s1.index.keys.filter (fun x => !(x = k : Bool)),
                           totalSize := s1.index.totalSize -
                             (match entryOpt with | some e2 => esize e2 | none => 0),
                           lastPruned := s1.index.lastPruned } }) := rfl

theorem C1_getCacheEntry_expired_diverges (fuel : Nat) (esize : CacheEntry → Nat)
    (now : Int) (s : CacheState) (cacheKey : String) (e : CacheEntry)
    (hstore : storeGet s.store cacheKey = some e) (hexp : now > e.expiresAt) :
    getCacheEntry fuel esize now s cacheKey = none ∧
    removeCacheEntry fuel esize now s cacheKey = none := by
  induction fuel with
  | zero => exact ⟨rfl, rfl⟩
  | succ n ih =>
    constructor
    · rw [getCacheEntry_succ, hstore]
      show (if now > e.expiresAt then
          (match removeCacheEntry n esize now s cacheKey with
           | none => none
           | some s1 => some (none, s1))
        else some (some e, s)) = none
      rw [if_pos hexp, ih.2]
    · rw [removeCacheEntry_succ, ih.1]

theorem C1_getCacheEntry_expired_diverges_witness :
    storeGet stateAB.store "a" = some entryA ∧
    ((200 : Int) > entryA.expiresAt) ∧
    getCacheEntry 1000 esize1 200 stateAB "a" = none ∧
    getCacheEntry 2 esize1 0 stateAB "a" = some (some entryA, stateAB) :=
  ⟨by decide, by decide,
    (C1_getCacheEntry_expired_diverges 1000 esize1 200 stateAB "a" entryA
      (by decide) (by decide)).1,
    by decide⟩

/-!
## C3 — index consistency of `saveCacheEntry`
-/

/-- C3 counterexample: overwriting key `"k"` (old and new entry both
of size 10 under `esize10`, so the claimed size delta is 0) increases
the stored `totalSize` from 10 to 20 — `saveCacheEntry` adds the full
new entry size, not the delta. -/
theorem C3_saveCacheEntry_overwrite_adds_full_size_cex :
    saveCacheEntry 2 esize10 0 stateK entryK2 =
      some (Except.ok { store := [("k", entryK2)],
                        index := { keys := ["k"], totalSize := 20, lastPruned := 0 } }) ∧
    stateK.index.totalSize + (esize10 entryK2 - esize10 entryK1) = 10 ∧
    (20 : Nat) ≠ 10 := by
  exact ⟨by decide, by decide, by decide⟩

theorem storeGet_storeSet_self (store : List (String × CacheEntry)) (k : String)
    (e : CacheEntry) : storeGet (storeSet store k e) k = some e := by
  unfold storeSet storeRemove
  induction store with
  | nil => simp [storeGet]
  | cons p ps ih =>
    by_cases hp : p.1 = k
    · simpa [hp] using ih
    · simpa [List.filter_cons, hp, storeGet] using ih

theorem storeGet_storeSet_ne (store : List (String × CacheEntry)) (k k2 : String)
    (e : CacheEntry) (h : k2 ≠ k) :
    storeGet (storeSet store k e) k2 = storeGet store k2 := by
  unfold storeSet storeRemove
  induction store with
  | nil => simp [storeGet, Ne.symm h]
  | cons p ps ih =>
    by_cases hp : p.1 = k
    · rw [List.filter_cons_of_neg (by simp [hp])]
      rw [ih]
      have : ¬ p.1 = k2 := by rw [hp]; exact fun hc => h hc.symm
      simp [storeGet, this]
    · rw [List.filter_cons_of_pos (by simp [hp])]
      by_cases hq : p.1 = k2
      · simp [storeGet, hq]
      · simp only [storeGet, if_neg hq]
        exact ih

/-- C3 (amended): a completed `saveCacheEntry` that does not trigger
eviction keeps the index key set equal to the stored key set, but the
running total grows by the *full* size of the written entry — also on
overwrite, where the source never subtracts the old entry's size (and
an eviction-triggering save then stores the pre-eviction in-memory
index, as `saveCacheEntry`'s final `saveCacheIndex(index)` shows). -/
theorem C3_saveCacheEntry_no_eviction_consistency (fuel : Nat)
    (esize : CacheEntry → Nat) (now : Int) (s : CacheState) (entry : CacheEntry)
    (hsize : esize entry ≤ MAX_ENTRY_SIZE_BYTES)
    (hbudget : s.index.totalSize + esize entry ≤ MAX_STORAGE_BYTES)
    (hcons : ∀ k, k ∈ s.index.keys ↔ (storeGet s.store k).isSome) :
    ∃ s1, saveCacheEntry fuel esize now s entry = some (Except.ok s1) ∧
      (∀ k, k ∈ s1.index.keys ↔ (storeGet s1.store k).isSome) ∧
      s1.index.totalSize = s.index.totalSize + esize entry ∧
      storeGet s1.store entry.cacheKey = some entry := by
  refine ⟨{ store := storeSet s.store entry.cacheKey entry,
            index := { keys := if s.index.keys.contains entry.cacheKey
                               then s.index.keys else s.index.keys ++ [entry.cacheKey],
                       totalSize := s.index.totalSize + esize entry,
                       lastPruned := s.index.lastPruned } }, ?_, ?_, rfl, ?_⟩
  · unfold saveCacheEntry
    rw [if_neg (by omega)]
    have hnoprune : ¬ s.index.totalSize + esize entry > MAX_STORAGE_BYTES := by omega
    simp only [hnoprune, if_false]
  · intro k
    by_cases hk : k = entry.cacheKey
    · rw [hk, storeGet_storeSet_self]
      simp only [Option.isSome_some, iff_true]
      by_cases hmem : s.index.keys.contains entry.cacheKey
      · rw [if_pos hmem]
        exact List.mem_of_elem_eq_true hmem
      · rw [if_neg hmem]
        simp
    · rw [storeGet_storeSet_ne _ _ _ _ hk]
      rw [← hcons k]
      by_cases hmem : s.index.keys.contains entry.cacheKey
      · rw [if_pos hmem]
      · rw [if_neg hmem]
        simp [List.mem_append, hk]
  · exact storeGet_storeSet_self _ _ _

theorem C3_saveCacheEntry_no_eviction_consistency_witness :
    esize10 entryA ≤ MAX_ENTRY_SIZE_BYTES ∧
    ∃ s1, saveCacheEntry 2 esize10 0
        { store := [], index := { keys := [], totalSize := 0, lastPruned := 0 } } entryA =
        some (Except.ok s1) ∧
      (∀ k, k ∈ s1.index.keys ↔ (storeGet s1.store k).isSome) ∧
      s1.index.totalSize = 0 + esize10 entryA ∧
      storeGet s1.store entryA.cacheKey = some entryA :=
  ⟨by decide,
    C3_saveCacheEntry_no_eviction_consistency 2 esize10 0
      { store := [], index := { keys := [], totalSize := 0, lastPruned := 0 } } entryA
      (by decide) (by decide) (fun k => by simp [storeGet])⟩

/-!
## C10 — extracted comments have non-empty text and author
-/

theorem append_ne_empty_left (a b : String) (ha : a ≠ "") : (a ++ b) ≠ "" := by
  intro hc
  apply ha
  have h2 : a.data ++ b.data = [] := by
    have := congrArg String.data hc
    rwa [String.data_append] at this
  exact String.ext (List.append_eq_nil.mp h2).1

theorem extractTwitterUsername_ne_empty (t : TweetEl) :
    extractTwitterUsername t ≠ "" := by
  unfold extractTwitterUsername
  split
  · decide
  · split
    · split
      · exact append_ne_empty_left "@" _ (by decide)
      · split
        · rename_i hsw
          intro hc
          rw [hc] at hsw
          exact absurd hsw (by decide)
        · exact append_ne_empty_left "@" _ (by decide)
    · split
      · rename_i hsw
        intro hc
        rw [hc] at hsw
        exact absurd hsw (by decide)
      · exact append_ne_empty_left "@" _ (by decide)


theorem extractRepliesGo_nonempty (tweets : List TweetEl) (fm : Bool) (rc : Nat) :
    ∀ c ∈ extractRepliesGo tweets fm rc, c.text ≠ "" ∧ c.author ≠ "" := by
  induction tweets generalizing fm rc with
  | nil =>
    intro c hc
    simp [extractRepliesGo] at hc
  | cons t ts ih =>
    intro c hc
    unfold extractRepliesGo at hc
    split at hc
    · exact ih true rc c hc
    · split at hc
      · exact ih fm rc c hc
      · split at hc
        · cases hc
        · split at hc
          · exact ih fm rc c hc
          · rename_i htext
            rcases List.mem_cons.mp hc with rfl | hmem
            · exact ⟨truncateText_ne_empty _ _ htext, extractTwitterUsername_ne_empty t⟩
            · exact ih fm (rc + 1) c hmem

/-- C10 counterexample: a Twitter reply whose `User-Name` anchor is
missing gets the author placeholder `'Unknown'`, which is none of the
placeholders enumerated by the claim (`"[deleted]"`, `"Anonymous"`,
`"Facebook User"`, or an `"@"`-prefixed fallback). -/
theorem C10_twitter_unknown_author_cex :
    extractReplies tweetsNoAuthor =
      [{ id := "comment", author := "Unknown", text := "hi",
         parentId := none, depth := 0 }] ∧
    ("Unknown" : String) ≠ "[deleted]" ∧
    ("Unknown" : String) ≠ "Anonymous" ∧
    ("Unknown" : String) ≠ "Facebook User" ∧
    jsStartsWith "Unknown" "@" = false := by
  exact ⟨by decide, by decide, by decide, by decide, by decide⟩

/-- C10 (amended): every `Comment` placed in a `ThreadContext` by the
base helper or any of the three adapters has non-empty text and a
non-empty author: empty-text candidates are skipped, and a missing
author is replaced by a placeholder (`"[deleted]"`, `"Anonymous"`,
`"Facebook User"`, an `"@"`-prefixed fallback, or — for a Twitter
reply without a `User-Name` anchor — `"Unknown"`). -/
theorem C10_adapter_comments_nonempty
    (elements : List CandidateEl) (maxComments : Nat)
    (textEl authorEl : Option String) (depth : Nat)
    (tweets : List TweetEl)
    (candidateTexts : List String) (fbAuthorEl : Option String) :
    (∀ c ∈ extractCommentsFromElements elements maxComments,
      c.text ≠ "" ∧ c.author ≠ "") ∧
    (∀ c, redditExtractSingleComment textEl authorEl depth = some c →
      c.text ≠ "" ∧ c.author ≠ "") ∧
    (∀ c ∈ extractReplies tweets, c.text ≠ "" ∧ c.author ≠ "") ∧
    (∀ c, facebookExtractSingleComment candidateTexts fbAuthorEl = some c →
      c.text ≠ "" ∧ c.author ≠ "") := by
  refine ⟨?_, ?_, extractRepliesGo_nonempty tweets false 0, ?_⟩
  · intro c hc
    unfold extractCommentsFromElements at hc
    rw [List.mem_filterMap] at hc
    obtain ⟨el, hel, hf⟩ := hc
    by_cases ht : getTextContent el.textEl = ""
    · simp [ht] at hf
    · simp only [ht, if_false, Option.some.injEq, if_neg] at hf
      subst hf
      exact ⟨truncateText_ne_empty _ _ ht, jsOrDefault_ne_empty _ _ (by decide)⟩
  · intro c hf
    unfold redditExtractSingleComment at hf
    split at hf
    · cases hf
    · by_cases ht : getTextContent textEl = ""
      · simp [ht] at hf
      · simp only [ht, if_false, Option.some.injEq, if_neg] at hf
        subst hf
        exact ⟨truncateText_ne_empty _ _ ht, jsOrDefault_ne_empty _ _ (by decide)⟩
  · intro c hf
    unfold facebookExtractSingleComment at hf
    by_cases ht : candidateTexts.foldl
        (fun acc t => if t ≠ "" ∧ acc.length < t.length then t else acc) "" = ""
    · simp [ht] at hf
    · simp only [ht, if_false, Option.some.injEq, if_neg] at hf
      subst hf
      exact ⟨truncateText_ne_empty _ _ ht, jsOrDefault_ne_empty _ _ (by decide)⟩

theorem C10_adapter_comments_nonempty_witness :
    ({ id := "comment", author := "Anonymous", text := "hi",
       parentId := none, depth := 0 } : Comment).text ≠ "" ∧
    ({ id := "comment", author := "Anonymous", text := "hi",
       parentId := none, depth := 0 } : Comment).author ≠ "" :=
  (C10_adapter_comments_nonempty [{ textEl := some "hi", authorEl := none }] 50
      none none 0 [] [] none).1 _ (by decide)

/-!
## C2 — pruning evicts exactly the oldest ⌈N/5⌉ entries
-/

theorem pruneRemoveCount_le (n : Nat) : pruneRemoveCount n ≤ n := by
  unfold pruneRemoveCount PRUNE_PERCENTAGE_DEN
  omega

theorem storeGet_mem (store : List (String × CacheEntry)) (k : String)
    (e : CacheEntry) (h : storeGet store k = some e) : (k, e) ∈ store := by
  induction store with
  | nil => cases h
  | cons p ps ih =>
    rcases p with ⟨a, b⟩
    unfold storeGet at h
    split at h
    · rename_i hp
      injection h with h2
      have hp2 : a = k := hp
      have h3 : b = e := h2
      rw [hp2, h3]
      exact List.mem_cons_self _ _
    · exact List.mem_cons_of_mem _ (ih h)

theorem storeGet_filter_not_mem (store : List (String × CacheEntry))
    (R : List String) (k : String) :
    storeGet (store.filter (fun p => !(decide (p.1 ∈ R)))) k =
      if k ∈ R then none else storeGet store k := by
  induction store with
  | nil =>
    show (none : Option CacheEntry) = if k ∈ R then none else none
    split <;> rfl
  | cons p ps ih =>
    by_cases hp : p.1 ∈ R
    · rw [List.filter_cons_of_neg (by simp [hp]), ih]
      by_cases hk : k ∈ R
      · simp [hk]
      · have hpk : ¬ p.1 = k := fun hc => hk (hc ▸ hp)
        simp [hk, storeGet, hpk]
    · rw [List.filter_cons_of_pos (by simp [hp])]
      unfold storeGet
      by_cases hpk : p.1 = k
      · have hk : ¬ k ∈ R := fun h2 => hp (by rw [hpk]; exact h2)
        simp [hpk, hk]
      · rw [if_neg hpk, ih]
        by_cases hk : k ∈ R <;> simp [hk, hpk]

theorem removeCacheEntry_live_eq (m : Nat) (esize : CacheEntry → Nat) (now : Int)
    (st : CacheState) (k : String)
    (hl : ∀ e, storeGet st.store k = some e → ¬ now > e.expiresAt) :
    removeCacheEntry (m + 2) esize now st k =
      some { store := storeRemove st.store k,
             index := { keys := st.index.keys.filter (fun x => !(x = k : Bool)),
                        totalSize := st.index.totalSize -
                          (match storeGet st.store k with
                           | some e => esize e
                           | none => 0),
                        lastPruned := st.index.lastPruned } } := by
  rw [removeCacheEntry_succ, getCacheEntry_succ]
  cases hg : storeGet st.store k with
  | none => rfl
  | some e =>
    have hne := hl e hg
    show ((match (if now > e.expiresAt then
        (match removeCacheEntry m esize now st k with
         | none => none
         | some s1 => some (none, s1))
      else some (some e, st) : Option (Option CacheEntry × CacheState)) with
      | none => none
      | some (entryOpt, s1) =>
        some { store := storeRemove s1.store k,
               index := { keys := s1.index.keys.filter (fun x => !(x = k : Bool)),
                          totalSize := s1.index.totalSize -
                            (match entryOpt with | some e2 => esize e2 | none => 0),
                          lastPruned := s1.index.lastPruned } }) : Option CacheState) =
      some { store := storeRemove st.store k,
             index := { keys := st.index.keys.filter (fun x => !(x = k : Bool)),
                        totalSize := st.index.totalSize - esize e,
                        lastPruned := st.index.lastPruned } }
    rw [if_neg hne]

theorem removeAll_live_eq (m : Nat) (esize : CacheEntry → Nat) (now : Int)
    (R : List String) (st : CacheState)
    (hl : ∀ p ∈ st.store, ¬ now > p.2.expiresAt) :
    ∃ ts, removeAll (m + 2) esize now R st =
      some { store := st.store.filter (fun p => !(decide (p.1 ∈ R))),
             index := { keys := st.index.keys.filter (fun x => !(decide (x ∈ R))),
                        totalSize := ts,
                        lastPruned := st.index.lastPruned } } := by
  induction R generalizing st with
  | nil =>
    refine ⟨st.index.totalSize, ?_⟩
    show some st = _
    rcases st with ⟨store, ⟨ks, ts, lp⟩⟩
    simp
  | cons k R2 ih =>
    have hlk : ∀ e, storeGet st.store k = some e → ¬ now > e.expiresAt :=
      fun e he => hl (k, e) (storeGet_mem _ _ _ he)
    have hlive2 : ∀ p ∈ storeRemove st.store k, ¬ now > p.2.expiresAt :=
      fun p hp => hl p (List.mem_of_mem_filter hp)
    obtain ⟨ts, hts⟩ := ih
      (⟨storeRemove st.store k,
        ⟨st.index.keys.filter (fun x => !(x = k : Bool)),
         st.index.totalSize -
           (match storeGet st.store k with
            | some e => esize e
            | none => 0),
         st.index.lastPruned⟩⟩ : CacheState) hlive2
    have hstoreEq : (storeRemove st.store k).filter (fun p => !(decide (p.1 ∈ R2))) =
        st.store.filter (fun p => !(decide (p.1 ∈ k :: R2))) := by
      unfold storeRemove
      rw [List.filter_filter]
      refine List.filter_congr ?_
      intro a _
      by_cases h1 : a.1 = k <;> by_cases h2 : a.1 ∈ R2 <;>
        simp [h1, h2, List.mem_cons]
    have hkeysEq : (st.index.keys.filter (fun x => !(x = k : Bool))).filter
          (fun x => !(decide (x ∈ R2))) =
        st.index.keys.filter (fun x => !(decide (x ∈ k :: R2))) := by
      rw [List.filter_filter]
      refine List.filter_congr ?_
      intro a _
      by_cases h1 : a = k <;> by_cases h2 : a ∈ R2 <;>
        simp [h1, h2, List.mem_cons]
    refine ⟨ts, ?_⟩
    have hunfold : removeAll (m + 2) esize now (k :: R2) st =
        (match removeCacheEntry (m + 2) esize now st k with
         | none => none
         | some s1 => removeAll (m + 2) esize now R2 s1) := rfl
    rw [hunfold, removeCacheEntry_live_eq m esize now st k hlk]
    show removeAll (m + 2) esize now R2
        { store := storeRemove st.store k,
          index := { keys := st.index.keys.filter (fun x => !(x = k : Bool)),
                     totalSize := st.index.totalSize -
                       (match storeGet st.store k with
                        | some e => esize e
                        | none => 0),
                     lastPruned := st.index.lastPruned } } =
      some { store := st.store.filter (fun p => !(decide (p.1 ∈ k :: R2))),
             index := { keys := st.index.keys.filter (fun x => !(decide (x ∈ k :: R2))),
                        totalSize := ts,
                        lastPruned := st.index.lastPruned } }
    rw [hts, hstoreEq, hkeysEq]

theorem mem_pruneEntries_intro (esize : CacheEntry → Nat)
    (store : List (String × CacheEntry)) (keys : List String) (k : String)
    (e : CacheEntry) (hk : k ∈ keys) (he : storeGet store k = some e) :
    (k, e.createdAt, esize e) ∈ pruneEntries esize store keys := by
  unfold pruneEntries
  exact List.mem_filterMap.mpr ⟨k, hk, by rw [he]; rfl⟩

theorem pruneEntries_map_fst (esize : CacheEntry → Nat)
    (store : List (String × CacheEntry)) (keys : List String)
    (h : ∀ k ∈ keys, (storeGet store k).isSome) :
    (pruneEntries esize store keys).map (fun a => a.1) = keys := by
  induction keys with
  | nil => rfl
  | cons k ks ih =>
    obtain ⟨e, he⟩ := Option.isSome_iff_exists.mp (h k (List.mem_cons_self k ks))
    have hrest := ih (fun k2 hk2 => h k2 (List.mem_cons_of_mem _ hk2))
    unfold pruneEntries at hrest ⊢
    simp [List.filterMap_cons, he, hrest]

theorem pruneEntries_length (esize : CacheEntry → Nat)
    (store : List (String × CacheEntry)) (keys : List String)
    (h : ∀ k ∈ keys, (storeGet store k).isSome) :
    (pruneEntries esize store keys).length = keys.length := by
  have h2 := congrArg List.length (pruneEntries_map_fst esize store keys h)
  rwa [List.length_map] at h2

/-- Filtering a `Nodup` concatenation by (non-)membership in its left
part keeps exactly the other part's length. -/
theorem filter_split_lengths {α : Type} [DecidableEq α] (T D : List α)
    (hnd : (T ++ D).Nodup) :
    ((T ++ D).filter (fun x => !(decide (x ∈ T)))).length = D.length ∧
    ((T ++ D).filter (fun x => decide (x ∈ T))).length = T.length := by
  obtain ⟨-, -, hdisj⟩ := List.nodup_append.mp hnd
  have hTD : ∀ a ∈ D, a ∉ T := fun a ha h2 => hdisj h2 ha
  constructor
  · have h1 : T.filter (fun x => !(decide (x ∈ T))) = [] :=
      List.filter_eq_nil_iff.mpr (fun a ha => by simp [ha])
    have h2 : D.filter (fun x => !(decide (x ∈ T))) = D :=
      List.filter_eq_self.mpr (fun a ha => by simp [hTD a ha])
    rw [List.filter_append, h1, h2, List.nil_append]
  · have h3 : T.filter (fun x => decide (x ∈ T)) = T :=
      List.filter_eq_self.mpr (fun a ha => by simp [ha])
    have h4 : D.filter (fun x => decide (x ∈ T)) = [] :=
      List.filter_eq_nil_iff.mpr (fun a ha => by simp [hTD a ha])
    rw [List.filter_append, h3, h4, List.append_nil]

/-- C2: `pruneCache()` on `N` live entries (consistent non-duplicated
index, every entry unexpired) removes exactly
`⌈N * prunePercentage⌉ = ⌈N/5⌉` entries, the removed entries are the
oldest by `createdAt`, and `N - ⌈N/5⌉` entries remain, physically and
in the index. -/
theorem C2_pruneCache_evicts_oldest_fifth (fuel : Nat) (esize : CacheEntry → Nat)
    (now : Int) (s : CacheState)
    (hfuel : 2 ≤ fuel)
    (hnodup : s.index.keys.Nodup)
    (hkeys : ∀ k ∈ s.index.keys, (storeGet s.store k).isSome)
    (hstorekeys : ∀ p ∈ s.store, p.1 ∈ s.index.keys)
    (hlive : ∀ p ∈ s.store, ¬ now > p.2.expiresAt) :
    ∃ s1, pruneCache fuel esize now s none = some s1 ∧
      s1.index.keys.length =
        s.index.keys.length - pruneRemoveCount s.index.keys.length ∧
      (s.index.keys.filter (fun k => !(decide (k ∈ s1.index.keys)))).length =
        pruneRemoveCount s.index.keys.length ∧
      (∀ k ∈ s1.index.keys, k ∈ s.index.keys ∧
        storeGet s1.store k = storeGet s.store k) ∧
      (∀ k, k ∉ s1.index.keys → storeGet s1.store k = none) ∧
      (∀ k e k2 e2, k ∈ s.index.keys → k ∉ s1.index.keys →
        storeGet s.store k = some e → k2 ∈ s1.index.keys →
        storeGet s.store k2 = some e2 → e.createdAt ≤ e2.createdAt) := by
  obtain ⟨m, rfl⟩ : ∃ m, fuel = m + 2 := ⟨fuel - 2, by omega⟩
  set K := s.index.keys with hK
  set E := pruneEntries esize s.store K with hE
  set S := List.insertionSort byCreatedAt E with hS
  set c := pruneRemoveCount E.length with hc
  set R := (S.take c).map (fun e => e.1) with hR
  obtain ⟨ts, hra⟩ := removeAll_live_eq m esize now R s hlive
  have hlenE : E.length = K.length := pruneEntries_length esize s.store K hkeys
  have hperm : S.Perm E := List.perm_insertionSort byCreatedAt E
  have hsorted : List.Pairwise byCreatedAt S :=
    List.sorted_insertionSort byCreatedAt E
  have hmapfst : E.map (fun a => a.1) = K := pruneEntries_map_fst esize s.store K hkeys
  have hpermKeys : (S.map (fun a => a.1)).Perm K := by
    have h2 := hperm.map (fun a => a.1)
    rwa [hmapfst] at h2
  have hndS : (S.map (fun a => a.1)).Nodup := hpermKeys.nodup_iff.mpr hnodup
  have hsplitKeys : S.map (fun a => a.1) =
      R ++ (S.drop c).map (fun a => a.1) := by
    rw [hR, ← List.map_append, List.take_append_drop]
  have hndTD : (R ++ (S.drop c).map (fun a => a.1)).Nodup := by
    rw [← hsplitKeys]
    exact hndS
  obtain ⟨hlenD, hlenT⟩ :=
    filter_split_lengths R ((S.drop c).map (fun a => a.1)) hndTD
  have hSlen : S.length = K.length := hperm.length_eq.trans hlenE
  have hcS : c ≤ S.length := by
    rw [hperm.length_eq]
    rw [hc]
    exact pruneRemoveCount_le E.length
  have hRlen : R.length = c := by
    rw [hR, List.length_map, List.length_take]
    omega
  have hfK : ∀ p2 : String → Bool,
      (K.filter p2).length = ((S.map (fun a => a.1)).filter p2).length :=
    fun p2 => ((hpermKeys.filter p2).length_eq).symm
  have hcalc : pruneCache (m + 2) esize now s none =
      some { store := s.store.filter (fun p => !(decide (p.1 ∈ R))),
             index := { keys := K.filter (fun x => !(decide (x ∈ R))),
                        totalSize := ts, lastPruned := now } } := by
    show (match removeAll (m + 2) esize now R s with
      | none => none
      | some s1 => some { s1 with index := { s1.index with lastPruned := now } }) = _
    rw [hra]
  refine ⟨_, hcalc, ?_, ?_, ?_, ?_, ?_⟩
  · -- remaining index count
    rw [hfK, hsplitKeys, hlenD, List.length_map, List.length_drop, hSlen, hc, hlenE]
  · -- removed count
    have hcongr : K.filter
          (fun k => !(decide (k ∈ K.filter (fun x => !(decide (x ∈ R)))))) =
        K.filter (fun k => decide (k ∈ R)) := by
      refine List.filter_congr ?_
      intro x hx
      by_cases hxR : x ∈ R <;> simp [List.mem_filter, hx, hxR]
    rw [hcongr, hfK, hsplitKeys, hlenT, hRlen, hc, hlenE]
  · -- kept entries unchanged
    intro k hk
    obtain ⟨hkK, hPk⟩ := List.mem_filter.mp hk
    have hkR : ¬ k ∈ R := by simpa using hPk
    exact ⟨hkK, by rw [storeGet_filter_not_mem, if_neg hkR]⟩
  · -- removed (or never-present) entries physically absent
    intro k hknot
    by_cases hkR : k ∈ R
    · rw [storeGet_filter_not_mem, if_pos hkR]
    · have hkK : k ∉ K := fun hkK =>
        hknot (List.mem_filter.mpr ⟨hkK, by simpa using hkR⟩)
      cases hsg : storeGet s.store k with
      | none => rw [storeGet_filter_not_mem, if_neg hkR, hsg]
      | some e => exact absurd (hstorekeys (k, e) (storeGet_mem _ _ _ hsg)) hkK
  · -- removed entries are the oldest
    intro k e k2 e2 hkK hknot he hk2 he2
    have hkR : k ∈ R := by
      by_contra hkR
      exact hknot (List.mem_filter.mpr ⟨hkK, by simpa using hkR⟩)
    obtain ⟨hk2K, hP2⟩ := List.mem_filter.mp hk2
    have hk2R : ¬ k2 ∈ R := by simpa using hP2
    have haS : (k, e.createdAt, esize e) ∈ S :=
      hperm.mem_iff.mpr (mem_pruneEntries_intro esize s.store K k e hkK he)
    have hbS : (k2, e2.createdAt, esize e2) ∈ S :=
      hperm.mem_iff.mpr (mem_pruneEntries_intro esize s.store K k2 e2 hk2K he2)
    have hsplitS : S.take c ++ S.drop c = S := List.take_append_drop c S
    obtain ⟨-, -, hdisj⟩ := List.nodup_append.mp hndTD
    have haS2 : (k, e.createdAt, esize e) ∈ S.take c ++ S.drop c := by
      rw [hsplitS]
      exact haS
    have hbS2 : (k2, e2.createdAt, esize e2) ∈ S.take c ++ S.drop c := by
      rw [hsplitS]
      exact hbS
    have hTake : (k, e.createdAt, esize e) ∈ S.take c := by
      rcases List.mem_append.mp haS2 with h | h
      · exact h
      · exact absurd hkR (fun hkR2 =>
          hdisj hkR2 (List.mem_map_of_mem (fun a => a.1) h))
    have hDrop : (k2, e2.createdAt, esize e2) ∈ S.drop c := by
      rcases List.mem_append.mp hbS2 with h | h
      · exact absurd (List.mem_map_of_mem (fun a => a.1) h) (by rw [← hR] at *; exact hk2R)
      · exact h
    have hPW : List.Pairwise byCreatedAt (S.take c ++ S.drop c) := by
      rw [hsplitS]
      exact hsorted
    exact (List.pairwise_append.mp hPW).2.2 _ hTake _ hDrop

theorem C2_pruneCache_evicts_oldest_fifth_witness :
    2 ≤ 2 ∧ stateAB.index.keys.Nodup ∧ pruneCache 2 esize1 0 stateAB none ≠ none := by
  refine ⟨by decide, by decide, ?_⟩
  obtain ⟨s1, h1, -, -, -, -, -⟩ :=
    C2_pruneCache_evicts_oldest_fifth 2 esize1 0 stateAB (by decide) (by decide)
      (by decide) (by decide) (by decide)
  rw [h1]
  exact fun hc => Option.noConfusion hc

end ReplyCraft
